import Mathlib

/-!
Verification of the Mount Mansfield snow-depth lambda (`src/index.js`).

The program fetches snow-depth readings (CSV rows with `Date` and `Depth`
string columns), normalizes them into one season record (`munge`), loads
the historical CSV table, and reconciles the fresh record against the
table's last row (`main`): append on a new season label, replace the last
row when the JSON serializations differ, otherwise do nothing.

JavaScript runtime values that occur in this data path are either strings
(every CSV field is parsed as a string) or `null` (written into
`reading.Depth` by the noise filter).  We embed them as `Val`.  `Date`
strings are embedded as Lean `String`s and the string operations of the
source (`split`, `parseInt`, `join`) are defined over their character
lists.
-/

set_option autoImplicit false

namespace Mansfield

/-- A JavaScript value in this program's data path: `null` or a string.
Depth fields arrive from the CSV parser as decimal digit strings or the
empty string (blank cell); the noise filter may overwrite them with
`null`. -/
inductive Val where
  | vnull : Val
  | vstr : String → Val
deriving DecidableEq, Repr

/-- JavaScript `Number(s)` restricted to this program's value domain:
the empty string coerces to `0`, a non-empty all-digit string to its
decimal value, anything else to NaN (`none`).  Depth fields produced by
the upstream CSV are canonical digit strings or empty, so this matches
the JS coercion on every value the program sees. -/
def jsStrToNum (s : String) : Option Nat :=
  if s = "" then some 0
  else if s.data.all Char.isDigit then some (s.data.foldl (fun acc c => acc * 10 + (c.toNat - 48)) 0)
  else none

/-- JavaScript loose equality `v == 0` (line 202 : `reading.Depth == 0`):
`null == 0` is false; a string compares via `Number`. -/
def looseEqZero : Val → Bool
  | .vnull => false
  | .vstr s => match jsStrToNum s with
    | some n => n == 0
    | none => false

/-- JavaScript `v > 10` (line 202 : `previousDepth > 10`): `null`
coerces to `0`, a string via `Number`, NaN compares false. -/
def gtTen : Val → Bool
  | .vnull => false
  | .vstr s => match jsStrToNum s with
    | some n => 10 < n
    | none => false

/-- One upstream reading: a row of the parsed CSV with its `Date` and
`Depth` fields.  The parser yields strings, so `depth` is `vstr` on
input; `vnull` only appears after the noise filter mutates it. -/
structure Reading where
  date : String
  depth : Val
deriving DecidableEq, Repr

/-- The run-time clock captured at module load (lines 146-148):
`date.getMonth()` (0-indexed) and `date.getFullYear()`. -/
structure RunDate where
  month : Nat
  year : Nat
deriving DecidableEq, Repr

/-- Decimal digit character for `n < 10`. -/
def digitToChar : Nat → Char
  | 0 => '0' | 1 => '1' | 2 => '2' | 3 => '3' | 4 => '4'
  | 5 => '5' | 6 => '6' | 7 => '7' | 8 => '8' | 9 => '9' | _ => '*'

/-- Decimal rendering of a natural number, most significant digit first,
with explicit fuel so that it is structurally recursive (the fuel
`n + 1` always suffices). -/
def natToCharsAux : Nat → Nat → List Char → List Char
  | 0, _, acc => acc
  | f + 1, n, acc =>
    let acc1 := digitToChar (n % 10) :: acc
    if n < 10 then acc1 else natToCharsAux f (n / 10) acc1

/-- JavaScript's decimal rendering of a non-negative number (as used by
`join` on the `parseInt` results). -/
def natToChars (n : Nat) : List Char := natToCharsAux (n + 1) n []

/-- Numeric value of a digit string (fold used by `jsStrToNum` and by
the model of `parseInt`). -/
def charsVal (l : List Char) : Nat := l.foldl (fun acc c => acc * 10 + (c.toNat - 48)) 0

/-- JavaScript `String.prototype.split` with a single-character
separator, over the character list. -/
def splitChar (sep : Char) : List Char → List (List Char)
  | [] => [[]]
  | c :: cs =>
    match splitChar sep cs with
    | [] => [[]]
    | r :: rs => if c = sep then [] :: r :: rs else (c :: r) :: rs

/-- JavaScript `Array.prototype.join("/")` over character lists. -/
def joinSlash : List (List Char) → List Char
  | [] => []
  | [a] => a
  | a :: rest => a ++ '/' :: joinSlash rest

/-- `String(parseInt(s, 10))` for the strings this program splits a
date into: the leading digit run is parsed (decimal), an empty digit
run gives NaN, and the result is rendered back to characters by `join`.
-/
def renderParseInt (s : List Char) : List Char :=
  let ds := s.takeWhile Char.isDigit
  if ds = [] then ['N', 'a', 'N'] else natToChars (charsVal ds)

/-- Lines 193-197: `reading.Date.split("-").slice(1).map(n =>
parseInt(n, 10)).join("/")` — the normalized date label. -/
def normDateLabel (s : String) : String :=
  String.mk (joinSlash (((splitChar '-' s.data).drop 1).map renderParseInt))

/-- A season record: a JavaScript object embedded as an association
list in key insertion order (the order `Object.keys` and
`JSON.stringify` observe). -/
abbrev SeasonRecord := List (String × Val)

/-- Property read `r[k]`: `undefined` is `none`. -/
def jsGet (r : SeasonRecord) (k : String) : Option Val :=
  (r.find? (fun p => p.1 = k)).map Prod.snd

/-- The object spread `{...season, [k]: v}` (lines 206-209): an
existing key keeps its insertion position and gets the new value, a
fresh key is appended at the end. -/
def objInsert (r : SeasonRecord) (k : String) (v : Val) : SeasonRecord :=
  if r.any (fun p => p.1 = k) then
    r.map (fun p => if p.1 = k then (k, v) else p)
  else r ++ [(k, v)]

/-- Lines 186-189: the season label, computed from the run-time clock
only (`month > 8` — season begins September 1, month index 8). -/
def seasonLabel (now : RunDate) : String :=
  if 8 < now.month then toString now.year ++ "-" ++ toString (now.year + 1)
  else toString (now.year - 1) ++ "-" ++ toString now.year

/-- Lines 201-204: the noise filter applied to one reading's depth,
given the value of `sourceData[index - 1].Depth` at the time the filter
runs (`.vnull` at index 0, where the code supplies the literal `null`).
`if (reading.Depth == 0 && (previousDepth > 10 || previousDepth ===
null)) reading.Depth = null`. -/
def normDepth (prev d : Val) : Val :=
  if looseEqZero d && (gtTen prev || prev == .vnull) then .vnull else d

/-- The sequence of depths the reduce of `munge` stores, position by
position.  Because the filter assigns `reading.Depth = null` in place,
the `previousDepth` it reads at index `i` is the already-filtered depth
of reading `i - 1`; this recursion threads exactly that value. -/
def normDepths : Val → List Reading → List Val
  | _, [] => []
  | prev, r :: rs =>
    let d := normDepth prev r.depth
    d :: normDepths d rs

/-- The body of the `reduce` in `munge` (lines 191-212), threading the
previous (post-filter) depth and the accumulator object. -/
def mungeAux : Val → List Reading → SeasonRecord → SeasonRecord
  | _, [], acc => acc
  | prev, r :: rs, acc =>
    let d := normDepth prev r.depth
    mungeAux d rs (objInsert acc (normDateLabel r.date) d)

/-- Lines 185-213: `munge(sourceData)` — fold the readings into one
season record starting from `{ year: seasonLabel }`. -/
def munge (now : RunDate) (sourceData : List Reading) : SeasonRecord :=
  mungeAux .vnull sourceData [("year", .vstr (seasonLabel now))]

/-- Error outcomes of a run.  `typeErrorUndefined` is the JavaScript
`TypeError` thrown by reading `.year` on `undefined` (line 248 when the
table is empty).  `missingHistoryError` is the spec's
`MissingHistoryError` (§7); the source never produces it. -/
inductive RunError where
  | typeErrorUndefined : RunError
  | missingHistoryError : RunError
deriving DecidableEq, Repr

instance : DecidableEq (Except RunError Unit) := fun a b =>
  match a, b with
  | .ok (), .ok () => isTrue rfl
  | .ok (), .error _ => isFalse fun h => by cases h
  | .error _, .ok () => isFalse fun h => by cases h
  | .error x, .error y =>
    match decEq x y with
    | isTrue h => isTrue (by rw [h])
    | isFalse h => isFalse fun hh => h (by cases hh; rfl)

/-- Observable outcome of the reconciliation part of `main` (lines
245-273): whether the run completed or threw, the final contents of the
`snowFallData` variable (the loaded table, possibly mutated in place by
`push` / `splice`), and the list of tables passed to the writer
(`updateData` → `writeSnowDepthToS3`), in order. -/
structure RunResult where
  outcome : Except RunError Unit
  snowFallData : List SeasonRecord
  writes : List (List SeasonRecord)
deriving DecidableEq, Repr

/-- Lines 245-273 of `main`, from `snowFallData[snowFallData.length -
1]` on.  On an empty table the indexing yields `undefined` and `.year`
throws.  Otherwise: `historicalLatestYear !== currentSeasonDataYear` →
`push` and write; else `JSON.stringify(historicalLatestData) !==
JSON.stringify(currentSeasonData)` → `splice(-1, 1, current)` and
write; else nothing.  On our value domain `JSON.stringify` is
injective, so the stringify comparison is record equality (key order
included). -/
def mainReconcile (snowFallData : List SeasonRecord) (currentSeasonData : SeasonRecord) :
    RunResult :=
  match snowFallData.getLast? with
  | none => ⟨.error .typeErrorUndefined, snowFallData, []⟩
  | some historicalLatestData =>
    if jsGet historicalLatestData "year" ≠ jsGet currentSeasonData "year" then
      let t := snowFallData ++ [currentSeasonData]
      ⟨.ok (), t, [t]⟩
    else if historicalLatestData ≠ currentSeasonData then
      let t := snowFallData.dropLast ++ [currentSeasonData]
      ⟨.ok (), t, [t]⟩
    else ⟨.ok (), snowFallData, []⟩

/-- Lines 215-226, `stringifyObjectAsCsv`.  The repository code derives
the column list from the first record: `columns: Object.keys(object[0])`
(throws on an empty table, where `object[0]` is `undefined`).  The
`csv-stringify` call itself is an external library; its behaviour is
modelled from the spec (§4.4): each record becomes the row of its
values at exactly the configured columns, a missing key giving an empty
cell (`none`) and keys outside the column list being dropped.  The
result is the header (column list) plus one such row per record. -/
def stringifyObjectAsCsv (object : List SeasonRecord) :
    Option (List String × List (List (Option Val))) :=
  match object with
  | [] => none
  | first :: _ =>
    let columns := first.map Prod.fst
    some (columns, object.map (fun r => columns.map (fun k => jsGet r k)))

/-- Spec-side record equality (§4.2): "full structural equality over
all keys and values (order-insensitive for keys, but values must match
exactly)". Two records are spec-equal when each binding of either is
found, with the same value, in the other. -/
def specStructEq (r1 r2 : SeasonRecord) : Bool :=
  r1.all (fun p => jsGet r2 p.1 == some p.2) && r2.all (fun p => jsGet r1 p.1 == some p.2)

/-- Two-digit zero-padded decimal rendering of a calendar component, as
it appears in an ISO `YYYY-MM-DD` date. -/
def pad2 (n : Nat) : List Char :=
  if n < 10 then '0' :: natToChars n else natToChars n

/-! ### Association-list lemmas for the object operations -/

theorem find?_map_update (k : String) (v : Val) :
    ∀ r : SeasonRecord, r.any (fun p => p.1 = k) = true →
      (r.map (fun p => if p.1 = k then (k, v) else p)).find? (fun p => p.1 = k) = some (k, v)
  | [], h => by simp at h
  | p :: r, h => by
    by_cases hp : p.1 = k
    · simp only [List.map_cons, if_pos hp]
      rw [List.find?_cons_of_pos _ (by simp)]
    · have hr : r.any (fun p => p.1 = k) = true := by
        simp only [List.any_cons, Bool.or_eq_true, decide_eq_true_eq] at h
        exact h.resolve_left hp
      simp only [List.map_cons, if_neg hp]
      rw [List.find?_cons_of_neg _ (by simpa using hp)]
      exact find?_map_update k v r hr

theorem find?_append_absent (k : String) (v : Val) :
    ∀ r : SeasonRecord, r.any (fun p => p.1 = k) = false →
      (r ++ [(k, v)]).find? (fun p => p.1 = k) = some (k, v)
  | [], _ => by
    simp only [List.nil_append]
    rw [List.find?_cons_of_pos _ (by simp)]
  | p :: r, h => by
    simp only [List.any_cons, Bool.or_eq_false_iff, decide_eq_false_iff_not] at h
    simp only [List.cons_append]
    rw [List.find?_cons_of_neg _ (by simpa using h.1)]
    exact find?_append_absent k v r (by simpa using h.2)

theorem jsGet_objInsert_self (r : SeasonRecord) (k : String) (v : Val) :
    jsGet (objInsert r k v) k = some v := by
  unfold objInsert jsGet
  by_cases h : r.any (fun p => p.1 = k)
  · rw [if_pos h, find?_map_update k v r h]
    rfl
  · rw [if_neg h, find?_append_absent k v r (by simp only [Bool.not_eq_true] at h; exact h)]
    rfl

theorem find?_map_other (k k2 : String) (v : Val) (h : k2 ≠ k) :
    ∀ r : SeasonRecord,
      (r.map (fun p => if p.1 = k then (k, v) else p)).find? (fun p => p.1 = k2) =
        r.find? (fun p => p.1 = k2)
  | [] => rfl
  | p :: r => by
    by_cases hp : p.1 = k
    · have hk2 : ¬((k : String) = k2) := fun hh => h hh.symm
      have hp2 : ¬(p.1 = k2) := by rw [hp]; exact hk2
      simp only [List.map_cons, if_pos hp]
      rw [List.find?_cons_of_neg _ (by simpa using hk2),
        List.find?_cons_of_neg _ (by simpa using hp2)]
      exact find?_map_other k k2 v h r
    · by_cases hq : p.1 = k2
      · simp only [List.map_cons, if_neg hp]
        rw [List.find?_cons_of_pos _ (by simpa using hq),
          List.find?_cons_of_pos _ (by simpa using hq)]
      · simp only [List.map_cons, if_neg hp]
        rw [List.find?_cons_of_neg _ (by simpa using hq),
          List.find?_cons_of_neg _ (by simpa using hq)]
        exact find?_map_other k k2 v h r

theorem jsGet_objInsert_other (r : SeasonRecord) (k k2 : String) (v : Val) (h : k2 ≠ k) :
    jsGet (objInsert r k v) k2 = jsGet r k2 := by
  unfold objInsert jsGet
  by_cases hmem : r.any (fun p => p.1 = k)
  · rw [if_pos hmem, find?_map_other k k2 v h r]
  · rw [if_neg hmem]
    have hgen : ∀ r2 : SeasonRecord, (r2 ++ [(k, v)]).find? (fun p => p.1 = k2) =
        r2.find? (fun p => p.1 = k2) := by
      intro r2
      induction r2 with
      | nil =>
        simp only [List.nil_append]
        rw [List.find?_cons_of_neg _ (by simp only [decide_eq_true_eq]; exact fun hh => h hh.symm)]
      | cons p r2 ih =>
        by_cases hq : p.1 = k2
        · simp only [List.cons_append]
          rw [List.find?_cons_of_pos _ (by simpa using hq),
            List.find?_cons_of_pos _ (by simpa using hq)]
        · simp only [List.cons_append]
          rw [List.find?_cons_of_neg _ (by simpa using hq),
            List.find?_cons_of_neg _ (by simpa using hq)]
          exact ih
    rw [hgen]

theorem keys_objInsert_sub (r : SeasonRecord) (k : String) (v : Val) :
    (objInsert r k v).map Prod.fst = r.map Prod.fst ∨
      (objInsert r k v).map Prod.fst = r.map Prod.fst ++ [k] := by
  unfold objInsert
  by_cases h : r.any (fun p => p.1 = k)
  · left
    rw [if_pos h, List.map_map]
    apply List.map_congr_left
    intro p _
    by_cases hp : p.1 = k
    · simp [hp]
    · simp [hp]
  · right
    rw [if_neg h]
    simp

theorem keys_objInsert_nodup (r : SeasonRecord) (k : String) (v : Val)
    (h : (r.map Prod.fst).Nodup) : ((objInsert r k v).map Prod.fst).Nodup := by
  unfold objInsert
  by_cases hmem : r.any (fun p => p.1 = k)
  · rw [if_pos hmem, List.map_map]
    have : r.map (Prod.fst ∘ fun p => if p.1 = k then (k, v) else p) = r.map Prod.fst := by
      apply List.map_congr_left
      intro p _
      by_cases hp : p.1 = k
      · simp [hp]
      · simp [hp]
    rw [this]; exact h
  · rw [if_neg hmem]
    simp only [List.map_append, List.map_cons, List.map_nil]
    rw [List.nodup_append]
    refine ⟨h, List.nodup_singleton k, ?_⟩
    intro a ha hk
    simp only [List.mem_singleton] at hk
    subst hk
    simp only [List.any_eq_true, decide_eq_true_eq, not_exists, not_and] at hmem
    rcases List.mem_map.mp ha with ⟨p, hp, hfst⟩
    exact (hmem p hp) hfst

/-! ### Lemmas about the `munge` fold -/

/-- A key that is not one of the readings' date labels keeps the value
it had in the accumulator. -/
theorem jsGet_mungeAux_not_mem :
    ∀ (rs : List Reading) (prev : Val) (acc : SeasonRecord) (k : String),
      k ∉ rs.map (fun r => normDateLabel r.date) →
      jsGet (mungeAux prev rs acc) k = jsGet acc k
  | [], _, _, _, _ => rfl
  | r :: rs, prev, acc, k, h => by
    have h1 : k ≠ normDateLabel r.date := by
      intro hk; exact h (by simp [hk])
    have h2 : k ∉ rs.map (fun r => normDateLabel r.date) := by
      intro hk; exact h (by simp [hk])
    unfold mungeAux
    rw [jsGet_mungeAux_not_mem rs _ _ k h2, jsGet_objInsert_other _ _ _ _ h1]

theorem normDepths_length : ∀ (prev : Val) (rs : List Reading),
    (normDepths prev rs).length = rs.length
  | _, [] => rfl
  | prev, r :: rs => by
    unfold normDepths
    simp [normDepths_length _ rs]

/-- Position `i` of `normDepths` is the filter applied to reading `i`'s
depth with the filtered depth of reading `i - 1` (or the seed at
position 0) as `previousDepth`. -/
theorem normDepths_get : ∀ (rs : List Reading) (prev : Val) (i : Nat) (hi : i < rs.length),
    (normDepths prev rs).get ⟨i, by rw [normDepths_length]; exact hi⟩ =
      normDepth
        (if i = 0 then prev
         else (normDepths prev rs).get ⟨i - 1, by rw [normDepths_length]; omega⟩)
        ((rs.get ⟨i, hi⟩).depth)
  | r :: rs, prev, 0, _ => by simp [normDepths]
  | r :: rs, prev, j + 1, hi => by
    have hj : j < rs.length := by simpa using hi
    have ih := normDepths_get rs (normDepth prev r.depth) j hj
    simp only [normDepths, List.get_cons_succ] at ih ⊢
    rw [ih]
    rcases j with _ | j2
    · simp [normDepths]
    · simp

/-- The value `munge`'s fold stores under reading `i`'s date label,
when the date labels are pairwise distinct. -/
theorem jsGet_mungeAux_get :
    ∀ (rs : List Reading) (prev : Val) (acc : SeasonRecord),
      (rs.map (fun r => normDateLabel r.date)).Nodup →
      ∀ (i : Nat) (hi : i < rs.length),
        jsGet (mungeAux prev rs acc) (normDateLabel (rs.get ⟨i, hi⟩).date) =
          some ((normDepths prev rs).get ⟨i, by rw [normDepths_length]; exact hi⟩)
  | [], _, _, _, _, hi => absurd hi (by simp)
  | r :: rs, prev, acc, hnd, 0, hi => by
    have hmem : normDateLabel r.date ∉ rs.map (fun r => normDateLabel r.date) := by
      simpa using (List.nodup_cons.mp hnd).1
    show jsGet
        (mungeAux (normDepth prev r.depth) rs
          (objInsert acc (normDateLabel r.date) (normDepth prev r.depth)))
        (normDateLabel r.date) = some (normDepth prev r.depth)
    rw [jsGet_mungeAux_not_mem rs _ _ _ hmem, jsGet_objInsert_self]
  | r :: rs, prev, acc, hnd, j + 1, hi =>
    jsGet_mungeAux_get rs (normDepth prev r.depth)
      (objInsert acc (normDateLabel r.date) (normDepth prev r.depth))
      (List.nodup_cons.mp hnd).2 j (by simpa using hi)

/-- The fold preserves key uniqueness of the accumulator object. -/
theorem keys_mungeAux_nodup :
    ∀ (rs : List Reading) (prev : Val) (acc : SeasonRecord),
      (acc.map Prod.fst).Nodup → ((mungeAux prev rs acc).map Prod.fst).Nodup
  | [], _, _, h => h
  | r :: rs, prev, acc, h => by
    unfold mungeAux
    exact keys_mungeAux_nodup rs _ _ (keys_objInsert_nodup _ _ _ h)

/-! ### Decimal rendering lemmas -/

theorem digitToChar_isDigit : ∀ k < 10, (digitToChar k).isDigit = true := by decide

theorem digitToChar_val : ∀ k < 10, (digitToChar k).toNat - 48 = k := by decide

theorem digitToChar_ne_dash : ∀ k < 10, digitToChar k ≠ '-' := by decide

theorem natToCharsAux_append : ∀ (f n : Nat) (acc : List Char), n < f →
    natToCharsAux f n acc = natToCharsAux f n [] ++ acc
  | 0, n, _, h => absurd h (Nat.not_lt_zero n)
  | f + 1, n, acc, h => by
    by_cases h10 : n < 10
    · simp [natToCharsAux, h10]
    · have hn : 0 < n := by omega
      have hdiv : n / 10 < f := by
        have : n / 10 < n := Nat.div_lt_self hn (by omega)
        omega
      simp only [natToCharsAux, if_neg h10]
      rw [natToCharsAux_append f (n / 10) (digitToChar (n % 10) :: acc) hdiv,
        natToCharsAux_append f (n / 10) [digitToChar (n % 10)] hdiv]
      simp

theorem natToCharsAux_all_digit : ∀ (f n : Nat) (acc : List Char), n < f →
    ∀ c ∈ natToCharsAux f n acc, c.isDigit = true ∨ c ∈ acc
  | 0, n, _, h => absurd h (Nat.not_lt_zero n)
  | f + 1, n, acc, h => by
    have hd : (digitToChar (n % 10)).isDigit = true :=
      digitToChar_isDigit _ (Nat.mod_lt n (by omega))
    by_cases h10 : n < 10
    · intro c hc
      simp only [natToCharsAux, if_pos h10, List.mem_cons] at hc
      rcases hc with hc | hc
      · left; rw [hc]; exact hd
      · right; exact hc
    · have hdiv : n / 10 < f := by
        have : n / 10 < n := Nat.div_lt_self (by omega) (by omega)
        omega
      intro c hc
      simp only [natToCharsAux, if_neg h10] at hc
      rcases natToCharsAux_all_digit f (n / 10) _ hdiv c hc with hc2 | hc2
      · left; exact hc2
      · rcases List.mem_cons.mp hc2 with hc3 | hc3
        · left; rw [hc3]; exact hd
        · right; exact hc3

theorem natToChars_all_digit (n : Nat) : ∀ c ∈ natToChars n, c.isDigit = true := by
  intro c hc
  rcases natToCharsAux_all_digit (n + 1) n [] (Nat.lt_succ_self n) c hc with h | h
  · exact h
  · simp at h

theorem natToChars_ne_nil (n : Nat) : natToChars n ≠ [] := by
  unfold natToChars natToCharsAux
  by_cases h10 : n < 10
  · simp [h10]
  · simp only [if_neg h10]
    cases hn : n with
    | zero => omega
    | succ m =>
      have hdiv : n / 10 < m + 1 := by
        have : n / 10 < n := Nat.div_lt_self (by omega) (by omega)
        omega
      rw [← hn] at hdiv ⊢
      rw [natToCharsAux_append _ _ _ (by omega)]
      simp

theorem charsVal_append_singleton (l : List Char) (c : Char) :
    charsVal (l ++ [c]) = charsVal l * 10 + (c.toNat - 48) := by
  unfold charsVal
  rw [List.foldl_append]
  rfl

theorem charsVal_natToChars : ∀ (f n : Nat), n < f → charsVal (natToCharsAux f n []) = n
  | 0, n, h => absurd h (Nat.not_lt_zero n)
  | f + 1, n, h => by
    have hmod : n % 10 < 10 := Nat.mod_lt n (by omega)
    by_cases h10 : n < 10
    · simp only [natToCharsAux, if_pos h10]
      show 0 * 10 + ((digitToChar (n % 10)).toNat - 48) = n
      have h1 := digitToChar_val (n % 10) hmod
      have h2 : n % 10 = n := Nat.mod_eq_of_lt h10
      omega
    · have hdiv : n / 10 < f := by
        have : n / 10 < n := Nat.div_lt_self (by omega) (by omega)
        omega
      simp only [natToCharsAux, if_neg h10]
      rw [natToCharsAux_append f (n / 10) _ hdiv, charsVal_append_singleton,
        charsVal_natToChars f (n / 10) hdiv, digitToChar_val _ hmod]
      omega

theorem charsVal_natToChars_self (n : Nat) : charsVal (natToChars n) = n :=
  charsVal_natToChars (n + 1) n (Nat.lt_succ_self n)

theorem charsVal_cons_zero (l : List Char) : charsVal ('0' :: l) = charsVal l := rfl

theorem pad2_all_digit (n : Nat) : ∀ c ∈ pad2 n, c.isDigit = true := by
  unfold pad2
  by_cases h : n < 10
  · intro c hc
    rw [if_pos h] at hc
    rcases List.mem_cons.mp hc with hc | hc
    · rw [hc]; rfl
    · exact natToChars_all_digit n c hc
  · rw [if_neg h]
    exact natToChars_all_digit n

theorem pad2_ne_nil (n : Nat) : pad2 n ≠ [] := by
  unfold pad2
  by_cases h : n < 10
  · simp [h]
  · rw [if_neg h]; exact natToChars_ne_nil n

theorem pad2_not_dash (n : Nat) : '-' ∉ pad2 n := by
  intro h
  have := pad2_all_digit n '-' h
  simp [Char.isDigit] at this

theorem charsVal_pad2 (n : Nat) : charsVal (pad2 n) = n := by
  unfold pad2
  by_cases h : n < 10
  · rw [if_pos h, charsVal_cons_zero, charsVal_natToChars_self]
  · rw [if_neg h, charsVal_natToChars_self]

/-! ### `split` / `join` lemmas -/

theorem splitChar_ne_nil (sep : Char) : ∀ l : List Char, splitChar sep l ≠ []
  | [] => by simp [splitChar]
  | c :: cs => by
    unfold splitChar
    cases h : splitChar sep cs with
    | nil => simp
    | cons r rs =>
      by_cases hc : c = sep
      · simp [hc]
      · simp [hc]

theorem splitChar_not_mem (sep : Char) : ∀ l : List Char, sep ∉ l → splitChar sep l = [l]
  | [], _ => rfl
  | c :: cs, h => by
    have hc : c ≠ sep := fun hh => h (by simp [hh])
    have hcs : sep ∉ cs := fun hh => h (by simp [hh])
    unfold splitChar
    rw [splitChar_not_mem sep cs hcs]
    simp [hc]

theorem splitChar_append (sep : Char) :
    ∀ (a rest : List Char), sep ∉ a →
      splitChar sep (a ++ sep :: rest) = a :: splitChar sep rest
  | [], rest, _ => by
    show splitChar sep (sep :: rest) = [] :: splitChar sep rest
    cases hsp : splitChar sep rest with
    | nil => exact absurd hsp (splitChar_ne_nil sep rest)
    | cons r rs => simp [splitChar, hsp]
  | c :: a, rest, h => by
    have hc : c ≠ sep := fun hh => h (by simp [hh])
    have ha : sep ∉ a := fun hh => h (by simp [hh])
    have ih := splitChar_append sep a rest ha
    show splitChar sep (c :: (a ++ sep :: rest)) = (c :: a) :: splitChar sep rest
    cases hsp : splitChar sep rest with
    | nil => exact absurd hsp (splitChar_ne_nil sep rest)
    | cons r rs => simp [splitChar, ih, hsp, hc]

theorem joinSlash_pair (a b : List Char) : joinSlash [a, b] = a ++ '/' :: b := rfl

theorem mem_joinSlash : ∀ (parts : List (List Char)) (c : Char), c ∈ joinSlash parts →
    c = '/' ∨ ∃ p ∈ parts, c ∈ p
  | [], _, h => by simp [joinSlash] at h
  | [a], c, h => by
    right
    exact ⟨a, by simp, by simpa [joinSlash] using h⟩
  | a :: b :: rest, c, h => by
    unfold joinSlash at h
    rcases List.mem_append.mp h with h2 | h2
    · right; exact ⟨a, by simp, h2⟩
    · rcases List.mem_cons.mp h2 with h3 | h3
      · left; exact h3
      · rcases mem_joinSlash (b :: rest) c h3 with h4 | h4
        · left; exact h4
        · right
          rcases h4 with ⟨p, hp, hcp⟩
          exact ⟨p, by simp [List.mem_cons.mp hp], hcp⟩

theorem mem_renderParseInt (s : List Char) (c : Char) (h : c ∈ renderParseInt s) :
    c.isDigit = true ∨ c = 'N' ∨ c = 'a' := by
  unfold renderParseInt at h
  by_cases hd : s.takeWhile Char.isDigit = []
  · rw [if_pos hd] at h
    right
    rcases List.mem_cons.mp h with h2 | h2
    · left; exact h2
    · rcases List.mem_cons.mp h2 with h3 | h3
      · right; exact h3
      · rcases List.mem_cons.mp h3 with h4 | h4
        · left; exact h4
        · simp at h4
  · rw [if_neg hd] at h
    left
    exact natToChars_all_digit _ c h

/-- No date string normalizes to the reserved key `"year"`: every
character of a normalized label is a digit, `/`, `N` or `a`. -/
theorem normDateLabel_ne_year (s : String) : normDateLabel s ≠ "year" := by
  intro h
  unfold normDateLabel at h
  have hdata : joinSlash (((splitChar '-' s.data).drop 1).map renderParseInt) = "year".data :=
    congrArg String.data h
  have hy : 'y' ∈ joinSlash (((splitChar '-' s.data).drop 1).map renderParseInt) := by
    rw [hdata]
    show 'y' ∈ ['y', 'e', 'a', 'r']
    simp
  rcases mem_joinSlash _ _ hy with h2 | ⟨p, hp, hcp⟩
  · simp at h2
  · rcases List.mem_map.mp hp with ⟨q, _, hq⟩
    rcases mem_renderParseInt q 'y' (hq ▸ hcp) with h3 | h3 | h3 <;> simp at h3

/-- Normalization of a well-formed ISO date `YYYY-MM-DD` (the `YYYY`
part may be any `-`-free character string): the zero-padded month and
day are parsed and re-rendered without padding, joined with `/`. -/
theorem normDateLabel_iso (ys : List Char) (m d : Nat) (hy : '-' ∉ ys) :
    normDateLabel (String.mk (ys ++ '-' :: (pad2 m ++ '-' :: pad2 d))) =
      String.mk (natToChars m ++ '/' :: natToChars d) := by
  unfold normDateLabel
  have hsplit : splitChar '-' (ys ++ '-' :: (pad2 m ++ '-' :: pad2 d)) =
      ys :: pad2 m :: [pad2 d] := by
    rw [splitChar_append '-' ys _ hy, splitChar_append '-' (pad2 m) _ (pad2_not_dash m),
      splitChar_not_mem '-' (pad2 d) (pad2_not_dash d)]
  have hrender : ∀ n : Nat, renderParseInt (pad2 n) = natToChars n := by
    intro n
    unfold renderParseInt
    have htake : (pad2 n).takeWhile Char.isDigit = pad2 n :=
      List.takeWhile_eq_self_iff.mpr (pad2_all_digit n)
    rw [htake, if_neg (pad2_ne_nil n), charsVal_pad2]
  show String.mk (joinSlash (((splitChar '-' (ys ++ '-' :: (pad2 m ++ '-' :: pad2 d))).drop 1).map
    renderParseInt)) = _
  rw [hsplit]
  simp only [List.drop_succ_cons, List.drop_zero, List.map_cons, List.map_nil, hrender]
  rw [joinSlash_pair]

/-! ### Record-level consequences -/

/-- The reserved key `year` is never a date label, so the fold never
touches the `year` binding. -/
theorem jsGet_munge_year (now : RunDate) (rs : List Reading) :
    jsGet (munge now rs) "year" = some (.vstr (seasonLabel now)) := by
  unfold munge
  have hy : "year" ∉ rs.map (fun r => normDateLabel r.date) := by
    intro h
    rcases List.mem_map.mp h with ⟨r, _, hr⟩
    exact normDateLabel_ne_year r.date hr
  rw [jsGet_mungeAux_not_mem rs _ _ _ hy]
  rfl

theorem munge_keys_nodup (now : RunDate) (rs : List Reading) :
    ((munge now rs).map Prod.fst).Nodup := by
  unfold munge
  exact keys_mungeAux_nodup rs _ _ (by simp)

/-- In a record with pairwise-distinct keys, every stored binding is
retrieved by property access. -/
theorem jsGet_of_mem_nodup :
    ∀ (r : SeasonRecord) (k : String) (v : Val),
      (r.map Prod.fst).Nodup → (k, v) ∈ r → jsGet r k = some v
  | [], _, _, _, hmem => by simp at hmem
  | p :: r, k, v, hnd, hmem => by
    rcases List.mem_cons.mp hmem with h | h
    · unfold jsGet
      rw [← h]
      rw [List.find?_cons_of_pos _ (by simp)]
      rfl
    · have hne : p.1 ≠ k := by
        intro hk
        have : p.1 ∉ r.map Prod.fst := by simpa using (List.nodup_cons.mp hnd).1
        exact this (by
          rw [hk]
          exact List.mem_map.mpr ⟨(k, v), h, rfl⟩)
      unfold jsGet
      rw [List.find?_cons_of_neg _ (by simpa using hne)]
      exact jsGet_of_mem_nodup r k v (List.nodup_cons.mp hnd).2 h

/-- Dropping the bindings whose keys are outside `cols` does not change
property access at a key of `cols`. -/
theorem jsGet_filter_cols (cols : List String) (k : String) (hk : k ∈ cols) :
    ∀ r : SeasonRecord,
      jsGet (r.filter (fun p => cols.contains p.1)) k = jsGet r k
  | [] => rfl
  | p :: r => by
    by_cases hp : p.1 = k
    · have hcont : cols.contains p.1 = true := by
        rw [hp]
        exact List.elem_eq_true_of_mem hk
      unfold jsGet
      simp only [List.filter_cons, hcont, if_true]
      rw [List.find?_cons_of_pos _ (by simpa using hp),
        List.find?_cons_of_pos _ (by simpa using hp)]
    · by_cases hcont : cols.contains p.1 = true
      · unfold jsGet
        simp only [List.filter_cons, hcont, if_true]
        rw [List.find?_cons_of_neg _ (by simpa using hp),
          List.find?_cons_of_neg _ (by simpa using hp)]
        exact jsGet_filter_cols cols k hk r
      · have hcf : cols.contains p.1 = false := by
          simpa using hcont
        unfold jsGet
        simp only [List.filter_cons, hcf, Bool.false_eq_true, if_false]
        rw [List.find?_cons_of_neg _ (by simpa using hp)]
        exact jsGet_filter_cols cols k hk r

theorem mem_of_mem_dropLast {α : Type} :
    ∀ (l : List α) (a : α), a ∈ l.dropLast → a ∈ l
  | [], _, h => by simp at h
  | [b], a, h => by simp at h
  | b :: c :: l, a, h => by
    rcases List.mem_cons.mp (by simpa [List.dropLast] using h) with h2 | h2
    · simp [h2]
    · exact List.mem_cons.mpr (Or.inr (mem_of_mem_dropLast (c :: l) a h2))

/-! ### Branch lemmas for `mainReconcile` -/

theorem mainReconcile_append (table : List SeasonRecord) (prev current : SeasonRecord)
    (h : table.getLast? = some prev)
    (hne : jsGet prev "year" ≠ jsGet current "year") :
    mainReconcile table current =
      ⟨.ok (), table ++ [current], [table ++ [current]]⟩ := by
  unfold mainReconcile
  rw [h]
  simp only [if_pos hne]

theorem mainReconcile_replace (table : List SeasonRecord) (prev current : SeasonRecord)
    (h : table.getLast? = some prev)
    (hy : jsGet prev "year" = jsGet current "year") (hne : prev ≠ current) :
    mainReconcile table current =
      ⟨.ok (), table.dropLast ++ [current], [table.dropLast ++ [current]]⟩ := by
  unfold mainReconcile
  rw [h]
  simp only [if_neg (not_ne_iff.mpr hy), if_pos hne]

theorem mainReconcile_noop (table : List SeasonRecord) (prev current : SeasonRecord)
    (h : table.getLast? = some prev)
    (hy : jsGet prev "year" = jsGet current "year") (heq : prev = current) :
    mainReconcile table current = ⟨.ok (), table, []⟩ := by
  unfold mainReconcile
  rw [h]
  simp only [if_neg (not_ne_iff.mpr hy), if_neg (not_ne_iff.mpr heq)]

theorem ne_nil_of_getLast?_eq_some {α : Type} (l : List α) (a : α)
    (h : l.getLast? = some a) : l ≠ [] := by
  intro hl
  rw [hl] at h
  cases h

/-! ### The claims -/

/-- Claim C1: for a non-empty table with last element `previous` and a
fresh record `current`, reconciliation appends `current` (length + 1,
new last element) when the season labels differ; replaces the last
element (same length, earlier elements untouched) when the labels agree
but the records differ; and leaves the table unchanged otherwise. -/
theorem claim_C1 (table : List SeasonRecord) (prev current : SeasonRecord)
    (hlast : table.getLast? = some prev) :
    (jsGet prev "year" ≠ jsGet current "year" →
      (mainReconcile table current).snowFallData.length = table.length + 1 ∧
      (mainReconcile table current).snowFallData.getLast? = some current) ∧
    (jsGet prev "year" = jsGet current "year" → prev ≠ current →
      (mainReconcile table current).snowFallData.length = table.length ∧
      (mainReconcile table current).snowFallData.dropLast = table.dropLast ∧
      (mainReconcile table current).snowFallData.getLast? = some current) ∧
    (jsGet prev "year" = jsGet current "year" → prev = current →
      (mainReconcile table current).snowFallData = table) := by
  have hnil : table ≠ [] := ne_nil_of_getLast?_eq_some table prev hlast
  refine ⟨fun hne => ?_, fun hy hne => ?_, fun hy heq => ?_⟩
  · rw [mainReconcile_append table prev current hlast hne]
    constructor
    · simp
    · exact List.getLast?_concat _
  · rw [mainReconcile_replace table prev current hlast hy hne]
    refine ⟨?_, ?_, ?_⟩
    · have h1 : table.length ≠ 0 := fun h0 => hnil (List.length_eq_zero.mp h0)
      simp only [List.length_append, List.length_dropLast, List.length_cons,
        List.length_nil]
      omega
    · exact List.dropLast_concat
    · exact List.getLast?_concat _
  · rw [mainReconcile_noop table prev current hlast hy heq]

/-- Witness for C1 at a concrete one-row table and a new-season
record: the append branch fires. -/
theorem claim_C1_witness :
    (mainReconcile [[("year", Val.vstr "2023-2024")]]
        [("year", Val.vstr "2024-2025")]).snowFallData.length =
      ([[("year", Val.vstr "2023-2024")]] : List SeasonRecord).length + 1 ∧
    (mainReconcile [[("year", Val.vstr "2023-2024")]]
        [("year", Val.vstr "2024-2025")]).snowFallData.getLast? =
      some [("year", Val.vstr "2024-2025")] :=
  (claim_C1 [[("year", Val.vstr "2023-2024")]] [("year", Val.vstr "2023-2024")]
    [("year", Val.vstr "2024-2025")] rfl).1 (by decide)

/-- Claim C8: reconciling against a table whose last element is already
(equal to) the current record leaves the table unchanged and performs
no write. -/
theorem claim_C8 (table : List SeasonRecord) (current : SeasonRecord)
    (h : table.getLast? = some current) :
    mainReconcile table current = ⟨.ok (), table, []⟩ :=
  mainReconcile_noop table current current h rfl rfl

/-- Witness for C8 at a one-row table equal to the current record. -/
theorem claim_C8_witness :
    mainReconcile [[("year", Val.vstr "2024-2025"), ("1/5", Val.vstr "10")]]
        [("year", Val.vstr "2024-2025"), ("1/5", Val.vstr "10")] =
      ⟨.ok (), [[("year", Val.vstr "2024-2025"), ("1/5", Val.vstr "10")]], []⟩ :=
  claim_C8 _ _ rfl

/-- Claim C5: the season label stored under `year` depends only on the
run-time month and year, never on the readings, and follows the
September-boundary formula of lines 186-189. -/
theorem claim_C5 (now : RunDate) (rs : List Reading) :
    jsGet (munge now rs) "year" = some (.vstr (seasonLabel now)) ∧
    seasonLabel now =
      (if 8 < now.month then toString now.year ++ "-" ++ toString (now.year + 1)
       else toString (now.year - 1) ++ "-" ++ toString now.year) :=
  ⟨jsGet_munge_year now rs, rfl⟩

/-- Claim C10: every record produced by `munge` carries the reserved
`year` binding with the season label, and on the empty input the record
is exactly that single binding. -/
theorem claim_C10 (now : RunDate) :
    munge now [] = [("year", Val.vstr (seasonLabel now))] ∧
    ∀ rs : List Reading, jsGet (munge now rs) "year" = some (.vstr (seasonLabel now)) :=
  ⟨rfl, fun rs => jsGet_munge_year now rs⟩

/-- Claim C4, counterexample: on an empty historical table the run does
not fail with the spec's `MissingHistoryError`; it crashes with the
`TypeError` of reading `.year` on `undefined`. -/
theorem claim_C4_counterexample :
    (mainReconcile [] [("year", Val.vstr "2024-2025")]).outcome ≠
      Except.error RunError.missingHistoryError ∧
    (mainReconcile [] [("year", Val.vstr "2024-2025")]).outcome =
      Except.error RunError.typeErrorUndefined :=
  ⟨by decide, rfl⟩

/-- Claim C4 as amended: on an empty historical table the run fails —
by the undefined-property `TypeError`, not `MissingHistoryError` — and
no write occurs. -/
theorem claim_C4_amended (current : SeasonRecord) :
    mainReconcile [] current = ⟨.error .typeErrorUndefined, [], []⟩ ∧
    (mainReconcile [] current).writes = [] :=
  ⟨rfl, rfl⟩

/-- Claim C7, counterexample: in the append branch the reconciliation
both mutates the loaded table variable (`push`) and performs the write
itself, so it is not a pure function that merely returns the new table.
-/
theorem claim_C7_counterexample :
    (mainReconcile [[("year", Val.vstr "2022-2023")]]
        [("year", Val.vstr "2023-2024")]).snowFallData ≠
      [[("year", Val.vstr "2022-2023")]] ∧
    (mainReconcile [[("year", Val.vstr "2022-2023")]]
        [("year", Val.vstr "2023-2024")]).writes ≠ [] := by decide

/-- Claim C7 as amended: the outcome is a function of the loaded table
and the current record; in the unchanged case nothing is written and
the table variable keeps its value, otherwise the mutated table is
exactly what is written, and every record of the final table is an
unmodified input record (a loaded row or the current record). -/
theorem claim_C7_amended (table : List SeasonRecord) (current : SeasonRecord)
    (h : table ≠ []) :
    ((mainReconcile table current).writes = [] ∧
      (mainReconcile table current).snowFallData = table) ∨
    ((mainReconcile table current).writes = [(mainReconcile table current).snowFallData] ∧
      ∀ r ∈ (mainReconcile table current).snowFallData, r ∈ table ∨ r = current) := by
  rcases hlast : table.getLast? with _ | prev
  · exact absurd (List.getLast?_eq_none_iff.mp hlast) h
  · by_cases hy : jsGet prev "year" = jsGet current "year"
    · by_cases heq : prev = current
      · left
        rw [mainReconcile_noop table prev current hlast hy heq]
        exact ⟨rfl, rfl⟩
      · right
        rw [mainReconcile_replace table prev current hlast hy heq]
        refine ⟨rfl, fun r hr => ?_⟩
        rcases List.mem_append.mp hr with h2 | h2
        · exact Or.inl (mem_of_mem_dropLast table r h2)
        · exact Or.inr (by simpa using h2)
    · right
      rw [mainReconcile_append table prev current hlast hy]
      refine ⟨rfl, fun r hr => ?_⟩
      rcases List.mem_append.mp hr with h2 | h2
      · exact Or.inl h2
      · exact Or.inr (by simpa using h2)

/-- Witness for C7 (amended) at a concrete one-row table. -/
theorem claim_C7_witness :
    ((mainReconcile [[("year", Val.vstr "2022-2023")]]
        [("year", Val.vstr "2023-2024")]).writes = [] ∧
      (mainReconcile [[("year", Val.vstr "2022-2023")]]
        [("year", Val.vstr "2023-2024")]).snowFallData =
        [[("year", Val.vstr "2022-2023")]]) ∨
    ((mainReconcile [[("year", Val.vstr "2022-2023")]]
        [("year", Val.vstr "2023-2024")]).writes =
        [(mainReconcile [[("year", Val.vstr "2022-2023")]]
          [("year", Val.vstr "2023-2024")]).snowFallData] ∧
      ∀ r ∈ (mainReconcile [[("year", Val.vstr "2022-2023")]]
          [("year", Val.vstr "2023-2024")]).snowFallData,
        r ∈ [[("year", Val.vstr "2022-2023")]] ∨ r = [("year", Val.vstr "2023-2024")]) :=
  claim_C7_amended [[("year", Val.vstr "2022-2023")]] [("year", Val.vstr "2023-2024")]
    (by decide)

/-- Claim C3, counterexample: two records with the same season label
that hold the same key-value pairs in a different insertion order are
spec-structurally equal, yet the code does not judge them equal — the
`JSON.stringify` comparison is order-sensitive, so it takes the replace
branch and writes. -/
theorem claim_C3_counterexample :
    specStructEq
        [("year", Val.vstr "2024-2025"), ("1/5", Val.vstr "10"), ("1/6", Val.vstr "12")]
        [("year", Val.vstr "2024-2025"), ("1/6", Val.vstr "12"), ("1/5", Val.vstr "10")] =
      true ∧
    (mainReconcile
        [[("year", Val.vstr "2024-2025"), ("1/5", Val.vstr "10"), ("1/6", Val.vstr "12")]]
        [("year", Val.vstr "2024-2025"), ("1/6", Val.vstr "12"),
          ("1/5", Val.vstr "10")]).writes ≠ [] ∧
    (mainReconcile
        [[("year", Val.vstr "2024-2025"), ("1/5", Val.vstr "10"), ("1/6", Val.vstr "12")]]
        [("year", Val.vstr "2024-2025"), ("1/6", Val.vstr "12"),
          ("1/5", Val.vstr "10")]).snowFallData =
      [[("year", Val.vstr "2024-2025"), ("1/6", Val.vstr "12"),
        ("1/5", Val.vstr "10")]] := by decide

/-- Claim C3 as amended: the no-op / replace discrimination is
`JSON.stringify` equality, i.e. equality of the records as ordered
binding lists (key insertion order included), not order-insensitive
structural equality; a `null` value still never compares equal to a
string (numeric) value. -/
theorem claim_C3_amended (table : List SeasonRecord) (prev current : SeasonRecord)
    (hlast : table.getLast? = some prev)
    (hy : jsGet prev "year" = jsGet current "year") :
    ((mainReconcile table current).writes = [] ↔ prev = current) ∧
    ∀ k s, jsGet prev k = some Val.vnull → jsGet current k = some (Val.vstr s) →
      (mainReconcile table current).writes ≠ [] := by
  have hmain : ∀ hne : prev ≠ current, (mainReconcile table current).writes ≠ [] := by
    intro hne
    rw [mainReconcile_replace table prev current hlast hy hne]
    simp
  constructor
  · constructor
    · intro hw
      by_contra hne
      exact hmain hne hw
    · intro heq
      rw [mainReconcile_noop table prev current hlast hy heq]
  · intro k s hk1 hk2
    apply hmain
    intro heq
    rw [heq, hk2] at hk1
    cases hk1

/-- Witness for C3 (amended): a table whose last row equals the fresh
record is judged equal, so nothing is written. -/
theorem claim_C3_witness :
    ((mainReconcile [[("year", Val.vstr "2024-2025"), ("1/5", Val.vstr "10")]]
        [("year", Val.vstr "2024-2025"), ("1/5", Val.vstr "10")]).writes = [] ↔
      ([("year", Val.vstr "2024-2025"), ("1/5", Val.vstr "10")] : SeasonRecord) =
        [("year", Val.vstr "2024-2025"), ("1/5", Val.vstr "10")]) ∧
    ∀ k s, jsGet [("year", Val.vstr "2024-2025"), ("1/5", Val.vstr "10")] k =
        some Val.vnull →
      jsGet [("year", Val.vstr "2024-2025"), ("1/5", Val.vstr "10")] k =
        some (Val.vstr s) →
      (mainReconcile [[("year", Val.vstr "2024-2025"), ("1/5", Val.vstr "10")]]
        [("year", Val.vstr "2024-2025"), ("1/5", Val.vstr "10")]).writes ≠ [] :=
  claim_C3_amended [[("year", Val.vstr "2024-2025"), ("1/5", Val.vstr "10")]]
    [("year", Val.vstr "2024-2025"), ("1/5", Val.vstr "10")]
    [("year", Val.vstr "2024-2025"), ("1/5", Val.vstr "10")] rfl rfl

/-- Claim C2, counterexample.  First input: readings with depths
`["0", "0"]` — the claim (reading the raw previous depth, here `"0"`,
which is neither null nor `> 10`) predicts the second stored depth is
the numeric `0`; the code has already overwritten the first depth with
`null` in place, so the filter fires again and stores `null`.  Second
input: depths `["5", ""]` — the claim predicts `null` for the absent
value; the code keeps the empty field unchanged (`""`, not `null`). -/
theorem claim_C2_counterexample :
    jsGet (munge ⟨0, 2024⟩
        [⟨"2024-01-01", Val.vstr "0"⟩, ⟨"2024-01-02", Val.vstr "0"⟩]) "1/2" =
      some Val.vnull ∧
    Val.vnull ≠ Val.vstr "0" ∧
    jsGet (munge ⟨0, 2024⟩
        [⟨"2024-01-01", Val.vstr "5"⟩, ⟨"2024-01-02", Val.vstr ""⟩]) "1/2" =
      some (Val.vstr "") ∧
    Val.vstr "" ≠ Val.vnull := by decide

/-- Claim C2 as amended: with pairwise-distinct date labels, the value
stored under reading `i`'s label is `normDepth prev d` where `d` is
reading `i`'s depth and `prev` is the *already filtered* depth of
reading `i - 1` (the in-place `reading.Depth = null` assignment is
visible to the next iteration), `Val.vnull` at `i = 0`; `normDepth`
is literally the source's filter: if the depth loosely equals `0` and
`prev` is null or exceeds `10`, store `null`, otherwise store the depth
exactly as read (its numeric string, or the empty field when absent). -/
theorem claim_C2_amended (now : RunDate) (rs : List Reading)
    (hnd : (rs.map (fun r => normDateLabel r.date)).Nodup)
    (i : Nat) (hi : i < rs.length) :
    jsGet (munge now rs) (normDateLabel (rs.get ⟨i, hi⟩).date) =
      some ((normDepths Val.vnull rs).get ⟨i, by rw [normDepths_length]; exact hi⟩) ∧
    (normDepths Val.vnull rs).get ⟨i, by rw [normDepths_length]; exact hi⟩ =
      normDepth
        (if i = 0 then Val.vnull
         else (normDepths Val.vnull rs).get ⟨i - 1, by rw [normDepths_length]; omega⟩)
        ((rs.get ⟨i, hi⟩).depth) :=
  ⟨jsGet_mungeAux_get rs Val.vnull [("year", Val.vstr (seasonLabel now))] hnd i hi,
    normDepths_get rs Val.vnull i hi⟩

/-- Witness for C2 (amended) on depths `["20", "0"]`: the second
reading's stored depth is `null` (previous filtered depth 20 > 10). -/
theorem claim_C2_witness :
    jsGet (munge ⟨0, 2024⟩ [⟨"2024-01-01", Val.vstr "20"⟩, ⟨"2024-01-02", Val.vstr "0"⟩])
        (normDateLabel
          (([⟨"2024-01-01", Val.vstr "20"⟩, ⟨"2024-01-02", Val.vstr "0"⟩] :
            List Reading).get ⟨1, by decide⟩).date) =
      some ((normDepths Val.vnull
        [⟨"2024-01-01", Val.vstr "20"⟩, ⟨"2024-01-02", Val.vstr "0"⟩]).get
          ⟨1, by decide⟩) ∧
    (normDepths Val.vnull
        [⟨"2024-01-01", Val.vstr "20"⟩, ⟨"2024-01-02", Val.vstr "0"⟩]).get
      ⟨1, by decide⟩ = Val.vnull :=
  ⟨(claim_C2_amended ⟨0, 2024⟩
      [⟨"2024-01-01", Val.vstr "20"⟩, ⟨"2024-01-02", Val.vstr "0"⟩]
      (by decide) 1 (by decide)).1,
    by decide⟩

/-- Claim C6: for ISO `YYYY-MM-DD` dates (the year part any `-`-free
string, month and day zero-padded two-digit components) the date label
is month `/` day with the zero padding removed, and the keys of the
record built by `munge` are pairwise distinct for every input. -/
theorem claim_C6 :
    (∀ (ys : List Char) (m d : Nat), '-' ∉ ys →
      normDateLabel (String.mk (ys ++ '-' :: (pad2 m ++ '-' :: pad2 d))) =
        String.mk (natToChars m ++ '/' :: natToChars d)) ∧
    ∀ (now : RunDate) (rs : List Reading), ((munge now rs).map Prod.fst).Nodup :=
  ⟨normDateLabel_iso, munge_keys_nodup⟩

/-- Witness for C6: `"2024-01-05"` normalizes to `"1/5"`. -/
theorem claim_C6_witness :
    normDateLabel (String.mk ("2024".data ++ '-' :: (pad2 1 ++ '-' :: pad2 5))) =
      String.mk (natToChars 1 ++ '/' :: natToChars 5) ∧
    String.mk ("2024".data ++ '-' :: (pad2 1 ++ '-' :: pad2 5)) = "2024-01-05" ∧
    String.mk (natToChars 1 ++ '/' :: natToChars 5) = "1/5" :=
  ⟨claim_C6.1 "2024".data 1 5 (by decide), by decide, by decide⟩

/-- Claim C9: serialization takes its column set from the first
record's keys only.  First conjunct: the output is the first record's
key list as header and, per record, the values at exactly those keys.
Second conjunct: bindings whose keys are absent from the first record
never influence the output (dropping them from every record gives the
same serialization).  Third conjunct: when a record's keys all occur
among the first record's keys (and are distinct), each of its values
appears in its row. -/
theorem claim_C9 (first : SeasonRecord) (rest : List SeasonRecord) :
    stringifyObjectAsCsv (first :: rest) =
      some (first.map Prod.fst,
        (first :: rest).map (fun r => (first.map Prod.fst).map (fun k => jsGet r k))) ∧
    stringifyObjectAsCsv (first :: rest) =
      stringifyObjectAsCsv
        ((first :: rest).map
          (fun r => r.filter (fun p => (first.map Prod.fst).contains p.1))) ∧
    ∀ r ∈ first :: rest, (r.map Prod.fst).Nodup →
      (∀ p ∈ r, p.1 ∈ first.map Prod.fst) →
      ∀ p ∈ r, some p.2 ∈ (first.map Prod.fst).map (fun k => jsGet r k) := by
  have hfirst : first.filter (fun p => (first.map Prod.fst).contains p.1) = first := by
    apply List.filter_eq_self.mpr
    intro p hp
    exact List.elem_eq_true_of_mem (List.mem_map.mpr ⟨p, hp, rfl⟩)
  refine ⟨rfl, ?_, ?_⟩
  · show (some (first.map Prod.fst,
        (first :: rest).map (fun r => (first.map Prod.fst).map (fun k => jsGet r k))) :
          Option (List String × List (List (Option Val)))) = _
    unfold stringifyObjectAsCsv
    simp only [List.map_cons, hfirst]
    refine congrArg some (congrArg _ ?_)
    refine congrArg _ ?_
    rw [List.map_map]
    refine List.map_congr_left (fun r hr => ?_)
    refine List.map_congr_left (fun k hk => ?_)
    exact (jsGet_filter_cols (first.map Prod.fst) k hk r).symm
  · intro r hr hnd hsub p hp
    have hv : jsGet r p.1 = some p.2 :=
      jsGet_of_mem_nodup r p.1 p.2 hnd (by
        have : (p.1, p.2) = p := rfl
        rw [this]; exact hp)
    exact List.mem_map.mpr ⟨p.1, hsub p hp, hv⟩

/-- Witness for C9 on a two-row table sharing the key set
`{year, 1/5}`: the first row's depth value is serialized. -/
theorem claim_C9_witness :
    some (Val.vstr "10") ∈
      (([("year", Val.vstr "a"), ("1/5", Val.vstr "10")] : SeasonRecord).map
        Prod.fst).map
        (fun k => jsGet [("year", Val.vstr "a"), ("1/5", Val.vstr "10")] k) :=
  (claim_C9 [("year", Val.vstr "a"), ("1/5", Val.vstr "10")]
      [[("year", Val.vstr "b"), ("1/5", Val.vstr "12")]]).2.2
    [("year", Val.vstr "a"), ("1/5", Val.vstr "10")] (by decide) (by decide)
    (by decide) ("1/5", Val.vstr "10") (by decide)

end Mansfield
